import Mathlib

/-!
Verification development for the recommendation-system ingestion pipeline.

Shallow embedding of the repository's core modules:
  * `src/utils/data_processor.py`   — text normalization (`models_to_text`)
  * `src/models/sbert_model.py`     — embedding wrapper (`SBERTModel`)
  * `src/database/vector_store.py`  — vector repository (`MongoDBVectorStore`)
  * `src/pipelines/ingestion_pipeline.py` — orchestrator (`IngestionPipeline`)

Python dictionaries are modelled as association lists in insertion order
(`PyDict`), Python scalars by the `PyVal` inductive, floating-point numbers by
rationals, and the pseudo-random draws performed by `torch.randn` /
`nn.Linear` default initialisation by an explicit stream `g : Nat → Rat`
consumed left to right together with a cursor (the number of values consumed
so far).  Fallible Python code returns `Except PyErr`.
-/

/-- Python runtime errors that the modelled code can raise. -/
inductive PyErr where
  | typeErr
  | keyErr
  | zeroDiv
  | invalidOp
  deriving DecidableEq, Repr

/-- A Python value as it occurs in the source records handled by the
pipeline: strings, integers, floats (as rationals), lists and dictionaries. -/
inductive PyVal where
  | str (s : String)
  | int (n : Int)
  | float (q : Rat)
  | list (elems : List PyVal)
  | dict (fields : List (String × PyVal))

/-- A Python dictionary in insertion order. -/
abbrev PyDict := List (String × PyVal)

/-- Python `d[k]` lookup: first binding of `k` (keys are unique in a Python dict,
and `dictSet` preserves that). -/
def dictGet (d : PyDict) (k : String) : Option PyVal :=
  match d with
  | [] => none
  | (k', v) :: rest => if k' = k then some v else dictGet rest k

/-- Python `d[k] = v` assignment: replaces the value in place if the key exists
(keeping its position, as a Python dict does), otherwise appends it. -/
def dictSet (d : PyDict) (k : String) (v : PyVal) : PyDict :=
  match d with
  | [] => [(k, v)]
  | (k', v') :: rest => if k' = k then (k', v) :: rest else (k', v') :: dictSet rest k v

/-- Python's `", ".join`-style joining of strings with a separator. -/
def pyJoin (sep : String) : List String → String
  | [] => ""
  | [s] => s
  | s :: rest => s ++ sep ++ pyJoin sep rest

mutual

/-- Python `str(v)`.  `str` of a string is itself; containers render via
`repr`.  Floats are rendered through `Rat`'s string form (a modelling
simplification; no claim depends on the rendering of numbers). -/
def pyStrV : PyVal → String
  | PyVal.str s => s
  | PyVal.int n => toString n
  | PyVal.float q => toString q
  | PyVal.list es => "[" ++ pyReprListV es ++ "]"
  | PyVal.dict fs => "\x7b" ++ pyReprPairsV fs ++ "\x7d"

/-- Python `repr(v)` (string escaping inside quotes is not modelled). -/
def pyReprV : PyVal → String
  | PyVal.str s => "\x27" ++ s ++ "\x27"
  | PyVal.int n => toString n
  | PyVal.float q => toString q
  | PyVal.list es => "[" ++ pyReprListV es ++ "]"
  | PyVal.dict fs => "\x7b" ++ pyReprPairsV fs ++ "\x7d"

/-- Comma-joined `repr` of list elements, as inside Python's list `repr`. -/
def pyReprListV : List PyVal → String
  | [] => ""
  | [v] => pyReprV v
  | v :: rest => pyReprV v ++ ", " ++ pyReprListV rest

/-- Comma-joined `repr(key): repr(value)` entries, as inside a dict `repr`. -/
def pyReprPairsV : List (String × PyVal) → String
  | [] => ""
  | [(k, v)] => "\x27" ++ k ++ "\x27: " ++ pyReprV v
  | (k, v) :: rest => "\x27" ++ k ++ "\x27: " ++ pyReprV v ++ ", " ++ pyReprPairsV rest

end

mutual

/-- Structural equality of Python values (`==`), used by MongoDB id matching. -/
def PyVal.beqV : PyVal → PyVal → Bool
  | PyVal.str a, PyVal.str b => a == b
  | PyVal.int a, PyVal.int b => a == b
  | PyVal.float a, PyVal.float b => a == b
  | PyVal.list as, PyVal.list bs => beqListV as bs
  | PyVal.dict as, PyVal.dict bs => beqPairsV as bs
  | _, _ => false

/-- Elementwise equality of Python lists. -/
def beqListV : List PyVal → List PyVal → Bool
  | [], [] => true
  | a :: as, b :: bs => PyVal.beqV a b && beqListV as bs
  | _, _ => false

/-- Entrywise equality of Python dicts (insertion order sensitive; the ids
compared by the pipeline are scalars, where this agrees with Python). -/
def beqPairsV : List (String × PyVal) → List (String × PyVal) → Bool
  | [], [] => true
  | (k1, v1) :: as, (k2, v2) :: bs => k1 == k2 && PyVal.beqV v1 v2 && beqPairsV as bs
  | _, _ => false

end

/-! ## `src/utils/data_processor.py` -/

/-- The helper `convert_value` from `dict_to_string`: unwraps MongoDB-style
`$numberDouble` / `$numberInt` wrappers, comma-joins lists via `str`, and
falls back to Python `str` otherwise. -/
def convert_value : PyVal → String
  | PyVal.dict fs =>
    match dictGet fs "$numberDouble" with
    | some v => pyStrV v
    | none =>
      match dictGet fs "$numberInt" with
      | some v => pyStrV v
      | none => pyStrV (PyVal.dict fs)
  | PyVal.list es => pyJoin ", " (es.map pyStrV)
  | v => pyStrV v

/-- The brace-wrapped rendering used for the designated nested keys
(`performance`, `hardware_requirements`, `popularity`):
`f"{key}: {{{', '.join(nested_parts)}}}"`. -/
def specialKeyPart (k : String) (fs : List (String × PyVal)) : String :=
  k ++ ": \x7b" ++ pyJoin ", " (fs.map (fun kv => kv.1 ++ ": " ++ convert_value kv.2)) ++ "\x7d"

/-- One `string_parts` entry of `dict_to_string`: nested dicts under the
three designated keys get the brace-wrapped rendering, everything else is
`f"{key}: {convert_value(value)}"`. -/
def entryPart (kv : String × PyVal) : String :=
  match kv.2 with
  | PyVal.dict fs =>
    if kv.1 == "performance" || kv.1 == "hardware_requirements" || kv.1 == "popularity"
    then specialKeyPart kv.1 fs
    else kv.1 ++ ": " ++ convert_value (PyVal.dict fs)
  | v => kv.1 ++ ": " ++ convert_value v

/-- The `try` body of `dict_to_string`: flattens a record into comma-joined
`key: value` fragments in insertion order.  In this embedding the body is
total, so the `except` fallback (`dict_to_string_fallback`) is dead code. -/
def dict_to_string (data : PyDict) : String :=
  pyJoin ", " (data.map entryPart)

/-- Python `data.get(key, default)` returning `str` of the value, `""` when absent. -/
def getStrD (d : PyDict) (k : String) : String :=
  match dictGet d k with
  | some v => pyStrV v
  | none => ""

/-- Python `', '.join(data.get(key, []))` for list-of-string fields. -/
def getJoinD (d : PyDict) (k : String) : String :=
  match dictGet d k with
  | some (PyVal.list es) => pyJoin ", " (es.map pyStrV)
  | some v => pyStrV v
  | none => ""

/-- Python `data.get(key, {}).get(sub, '')` nested access rendered as a string. -/
def getNestedD (d : PyDict) (k sub : String) : String :=
  match dictGet d k with
  | some (PyVal.dict fs) => getStrD fs sub
  | _ => ""

/-- Python `data.get(key, {})` rendered via `str`. -/
def getRawD (d : PyDict) (k : String) : String :=
  match dictGet d k with
  | some v => pyStrV v
  | none => pyStrV (PyVal.dict [])

/-- The `except` branch of `dict_to_string`: best-effort space-joined
extraction of the fixed named fields.  Unreachable in this embedding because
the modelled `try` body never raises; kept for fidelity to the source. -/
def dict_to_string_fallback (data : PyDict) : String :=
  getStrD data "name" ++ " " ++
  getStrD data "framework" ++ " " ++
  getJoinD data "task" ++ " " ++
  getStrD data "architecture" ++ " " ++
  getJoinD data "domains" ++ " " ++
  getJoinD data "use_cases" ++ " " ++
  getStrD data "license" ++ " " ++
  getNestedD data "popularity" "stars" ++ " " ++
  getNestedD data "popularity" "downloads" ++ " " ++
  getRawD data "model_size_parameters" ++ " " ++
  getRawD data "hardware_requirements" ++ " "

/-- The ASCII core of Python's `\s` class (enough for the strings the
normalizer produces). -/
def isPySpace (c : Char) : Bool :=
  c == ' ' || c == '\t' || c == '\n' || c == '\r'

/-- Model of `re.sub(r"[\{\}\[\]]", "", _)`: strip curly braces and square brackets. -/
def removeBrackets (l : List Char) : List Char :=
  l.filter (fun c => !(c == '\x7b' || c == '\x7d' || c == '[' || c == ']'))

/-- Model of `re.sub(r"_", " ", _)`: underscores become spaces. -/
def underscoreToSpace (l : List Char) : List Char :=
  l.map (fun c => if c = '_' then ' ' else c)

/-- Model of `re.sub(r"\s*X\s*", repl, _)` for a single non-space character `X`:
scanning left to right, whenever the maximal whitespace run starting at the
current position is followed by `X`, the run, `X` and the following
whitespace run are replaced by `repl`; otherwise the scan advances one
character.  (Backtracking cannot shorten the `\s*`: one fewer space would put
a space where `X` must match.) -/
def subAround (t : Char) (repl : List Char) : List Char → List Char
  | [] => []
  | c :: cs =>
    if h : ((c :: cs).dropWhile isPySpace).head? = some t then
      repl ++ subAround t repl ((((c :: cs).dropWhile isPySpace).tail).dropWhile isPySpace)
    else c :: subAround t repl cs
termination_by l => l.length
decreasing_by
  · have h0 : (c :: cs).dropWhile isPySpace ≠ [] := by
      intro hnil; rw [hnil] at h; cases h
    have h1 : ((c :: cs).dropWhile isPySpace).length ≤ cs.length + 1 := by
      have h5 := (List.dropWhile_sublist (l := c :: cs) isPySpace).length_le
      simpa using h5
    have h2 : (((c :: cs).dropWhile isPySpace).tail).length =
        ((c :: cs).dropWhile isPySpace).length - 1 := List.length_tail _
    have h3 : ((((c :: cs).dropWhile isPySpace).tail).dropWhile isPySpace).length ≤
        (((c :: cs).dropWhile isPySpace).tail).length :=
      (List.dropWhile_sublist isPySpace).length_le
    have h4 : 1 ≤ ((c :: cs).dropWhile isPySpace).length := List.length_pos.2 h0
    simp only [List.length_cons]
    omega
  · simp [List.length_cons]

/-- Python `str.strip()`: remove leading and trailing whitespace. -/
def stripPy (l : List Char) : List Char :=
  ((l.dropWhile isPySpace).reverse.dropWhile isPySpace).reverse

/-- Model of `re.split(r"(?<=\.)\s*", _)`: cut after every `'.'`, consuming the
whitespace that follows it (zero-width matches split too, as in Python 3.7+).
-/
def splitSentences : List Char → List (List Char)
  | [] => [[]]
  | c :: cs =>
    if c = '.' then
      ['.'] :: splitSentences (cs.dropWhile isPySpace)
    else
      match splitSentences cs with
      | p :: ps => (c :: p) :: ps
      | [] => [[c]]
termination_by l => l.length
decreasing_by
  · have h1 : (cs.dropWhile isPySpace).length ≤ cs.length :=
      (List.dropWhile_sublist isPySpace).length_le
    simp only [List.length_cons]
    omega
  · simp [List.length_cons]

/-- Python `str.capitalize()`: first character uppercased, the rest
lowercased. -/
def capitalizePy : List Char → List Char
  | [] => []
  | c :: cs => c.toUpper :: cs.map Char.toLower

/-- Python `". ".join` at the character-list level. -/
def intercalateChars (sep : List Char) : List (List Char) → List Char
  | [] => []
  | [p] => p
  | p :: ps => p ++ sep ++ intercalateChars sep ps

/-- The function `format_model_description` from `data_processor.py`: strip structural
punctuation, normalize colon spacing, turn commas into sentence breaks,
strip, split into sentences after periods, capitalize each and rejoin. -/
def format_model_description (raw : String) : String :=
  let s1 := removeBrackets raw.data
  let s2 := underscoreToSpace s1
  let s3 := subAround ':' [':', ' '] s2
  let s4 := subAround ',' ['.', ' '] s3
  let s5 := stripPy s4
  String.mk (intercalateChars ['.', ' '] ((splitSentences s5).map capitalizePy))

/-- The normalized text written into a record's `content` field. -/
def normalizedContent (d : PyDict) : String :=
  format_model_description (dict_to_string d)

/-- The function `models_to_text` from `data_processor.py`: for each record the combined
`content` field is assigned in place (`item["content"] = ...`) and the same
list is returned.  The in-place mutation is modelled extensionally: the
result is the input list with each record updated by `dictSet`. -/
def models_to_text (data : List PyDict) : List PyDict :=
  data.map (fun item => dictSet item "content" (PyVal.str (normalizedContent item)))

/-! ## `src/models/sbert_model.py` -/

/-- Constant `original_embedding_size = 384` in `project_embeddings`. -/
def original_embedding_size : Nat := 384

/-- Constant `target_embedding_size = 1024` in `project_embeddings`. -/
def target_embedding_size : Nat := 1024

/-- Dot product of two vectors (the core of `nn.Linear`'s forward pass). -/
def dotV (u v : List Rat) : Rat :=
  (List.zipWith (· * ·) u v).sum

/-- The weight matrix freshly drawn by `nn.Linear(384, 1024)` at stream
position `s`: `out × in` entries, row-major. -/
def nnLinearWeight (g : Nat → Rat) (s : Nat) : List (List Rat) :=
  (List.range target_embedding_size).map (fun i =>
    (List.range original_embedding_size).map (fun j =>
      g (s + i * original_embedding_size + j)))

/-- The bias vector drawn by `nn.Linear(384, 1024)`, after the weights. -/
def nnLinearBias (g : Nat → Rat) (s : Nat) : List Rat :=
  (List.range target_embedding_size).map (fun i =>
    g (s + target_embedding_size * original_embedding_size + i))

/-- Stream values consumed by constructing one `nn.Linear(384, 1024)`. -/
def nnLinearConsumed : Nat :=
  target_embedding_size * original_embedding_size + target_embedding_size

/-- Model of `torch.randn(1, 384)`: one fresh simulated row of 384 draws. -/
def torchRandnRow (g : Nat → Rat) (s : Nat) : List (List Rat) :=
  (List.range 1).map (fun r =>
    (List.range original_embedding_size).map (fun c =>
      g (s + r * original_embedding_size + c)))

/-- Stream values consumed by one `SBERTModel.encode` call:
fresh `nn.Linear` weights and bias, then the `torch.randn(1, 384)` row. -/
def encodeConsumed : Nat := nnLinearConsumed + original_embedding_size

/-- Forward pass of `nn.Linear`: each input row `x` maps to
`W x + b` (row `i` is `dot (W i) x + b i`). -/
def linearForward (w : List (List Rat)) (b : List Rat) (x : List (List Rat)) :
    List (List Rat) :=
  x.map (fun row => List.zipWith (fun wrow bi => dotV wrow row + bi) w b)

/-- Model of `SBERTModel.project_embeddings`, faithfully including its two defects:
a fresh randomly initialised projection layer is created on every call, and
the `embedding` argument is immediately shadowed by a simulated
`torch.randn(1, 384)` row, so the projected output never depends on the real
embeddings.  Returns the projected rows and the advanced stream cursor. -/
def project_embeddings (g : Nat → Rat) (s : Nat) (embedding : List (List Rat)) :
    List (List Rat) × Nat :=
  let projection_layer_w := nnLinearWeight g s
  let projection_layer_b := nnLinearBias g s
  -- `embedding = torch.randn(1, original_embedding_size)` discards the argument
  let simulated := torchRandnRow g (s + nnLinearConsumed)
  (linearForward projection_layer_w projection_layer_b simulated, s + encodeConsumed)

/-- The `SBERTModel` wrapper; the underlying `SentenceTransformer` is an
opaque text-to-vectors function. -/
structure SBERTModel where
  modelEncode : List String → List (List Rat)

/-- Model of `SBERTModel.encode`: run the underlying model on the batch, then project.
The stream `g` with cursor `s` supplies the random draws of
`project_embeddings`. -/
def SBERTModel.encode (m : SBERTModel) (g : Nat → Rat) (s : Nat)
    (texts : List String) : List (List Rat) × Nat :=
  project_embeddings g s (m.modelEncode texts)

/-! ## `src/database/vector_store.py` -/

/-- A document of the vector collection: `{_id, text, embedding}` as built by
the ingestion pipeline, plus the `metadata` field that `update_vector` can
set (absent, i.e. `none`, until then). -/
structure VDoc where
  vid : PyVal
  vtext : String
  vembedding : List Rat
  vmetadata : Option PyVal

/-- Model of `MongoDBVectorStore.insert_vectors`: `insert_many` appends the documents;
pymongo rejects an empty document list. -/
def insert_vectors (store : List VDoc) (vectors : List VDoc) :
    Except PyErr (List VDoc) :=
  if vectors.isEmpty then Except.error PyErr.invalidOp
  else Except.ok (store ++ vectors)

/-- The `$set` document built by `update_vector`, applied to a matched
document: `update_data = {"metadata": metadata}` is extended with
`"embedding"` only when the argument is truthy (neither `None` nor the empty
list). -/
def applyUpdate (metadata : PyVal) (embedding : Option (List Rat)) (d : VDoc) :
    VDoc :=
  match embedding with
  | some (e :: es) => { d with vmetadata := some metadata, vembedding := e :: es }
  | _ => { d with vmetadata := some metadata }

/-- Model of `MongoDBVectorStore.update_vector`: `update_one({_id: id}, {$set: ...})`.
The first matching document is updated; no match is a logged no-op. -/
def update_vector (store : List VDoc) (vector_id : PyVal) (metadata : PyVal)
    (embedding : Option (List Rat)) : List VDoc :=
  match store with
  | [] => []
  | d :: rest =>
    if PyVal.beqV d.vid vector_id then applyUpdate metadata embedding d :: rest
    else d :: update_vector rest vector_id metadata embedding

/-! ## Source repository accessor

The orchestrator calls `source_db.count_documents` and
`source_db.load_collection_with_pagination`, and `vector_store.count_documents`;
these methods are declared by the spec's collaborator interfaces (§4.3, §4.5)
but are absent from the repository's own connector classes, so they are
modelled from the spec. -/

/-- Modelled from the spec: `count(collection) -> int`, the source
collection's document count (`MongoDBConnector.count_documents`, absent from
`mongodb_connector.py`). -/
def countDocuments (src : List PyDict) : Nat := src.length

/-- Modelled from the spec: `fetchPage(collection, page, pageSize)` with
`skip = (page-1)*pageSize`, `limit = pageSize`, empty past the last page
(`MongoDBConnector.load_collection_with_pagination`, absent from
`mongodb_connector.py`; `get_all_with_pagination` in the source has exactly
this contract). -/
def fetchPage (src : List PyDict) (page page_size : Int) : List PyDict :=
  (src.drop ((page - 1) * page_size).toNat).take page_size.toNat

/-! ## `src/pipelines/ingestion_pipeline.py` -/

/-- The observable state threaded through a pipeline run: the vector
collection, the random-stream cursor of the `SBERTModel`, and the trace of
pages fetched from the source (the orchestrator's observable interaction
with the source accessor). -/
structure IngestState where
  store : List VDoc
  rng : Nat
  fetched : List Int

/-- The summary dict returned by a completed `IngestionPipeline.run`. -/
structure RunSummary where
  status : String
  total_processed : Nat
  pages_processed : Int
  total_pages : Int
  deriving DecidableEq

/-- Helper `mapME f xs` is a Python list comprehension `[f(x) for x in xs]` that can
raise: it stops at the first raising element. -/
def mapME {α β : Type} (f : α → Except PyErr β) : List α → Except PyErr (List β)
  | [] => Except.ok []
  | x :: xs =>
    match f x with
    | Except.error e => Except.error e
    | Except.ok y =>
      match mapME f xs with
      | Except.error e => Except.error e
      | Except.ok ys => Except.ok (y :: ys)

/-- Python `zip` of three lists: truncates to the shortest. -/
def zip3V {α β γ : Type} : List α → List β → List γ → List (α × β × γ)
  | a :: as, b :: bs, c :: cs => (a, b, c) :: zip3V as bs cs
  | _, _, _ => []

/-- Model of `IngestionPipeline._process_batch`: normalize the batch, read the ids and
contents (a missing `_id` key raises `KeyError`), embed all texts in one
batched call, zip ids, texts and embeddings into vector documents and insert
them.  Returns the inserted count and the updated state. -/
def processBatch (m : SBERTModel) (g : Nat → Rat) (st : IngestState)
    (batch_data : List PyDict) : Except PyErr (Nat × IngestState) :=
  let processed_data := models_to_text batch_data
  match mapME (fun item =>
      match dictGet item "_id" with
      | some v => Except.ok v
      | none => Except.error PyErr.keyErr) processed_data with
  | Except.error e => Except.error e
  | Except.ok model_ids =>
    match mapME (fun item =>
        match dictGet item "content" with
        | some (PyVal.str s) => Except.ok s
        | some _ => Except.error PyErr.typeErr
        | none => Except.error PyErr.keyErr) processed_data with
    | Except.error e => Except.error e
    | Except.ok texts =>
      let res := SBERTModel.encode m g st.rng texts
      let vector_docs := (zip3V model_ids texts res.1).map (fun t =>
        { vid := t.1, vtext := t.2.1, vembedding := t.2.2, vmetadata := none : VDoc })
      match insert_vectors st.store vector_docs with
      | Except.error e => Except.error e
      | Except.ok store' =>
        Except.ok (vector_docs.length, { st with store := store', rng := res.2 })

/-- Model of `math.ceil(a / b)` on Python ints: the negated floor division of the
negation. -/
def pyCeilDiv (a b : Int) : Int := -((-a).fdiv b)

/-- Model of `current_page = max(1, start_page if start_page else 1)`: `None` and the
falsy `0` default to `1`, then clamp to at least 1. -/
def clampStart (start_page : Option Int) : Int :=
  max 1 (match start_page with
    | none => 1
    | some v => if v = 0 then 1 else v)

/-- Model of `end_page = min(total_pages, end_page if end_page else total_pages)`:
`None` and the falsy `0` default to `total_pages`, then clamp from above. -/
def clampEnd (total_pages : Int) (end_page : Option Int) : Int :=
  min total_pages (match end_page with
    | none => total_pages
    | some v => if v = 0 then total_pages else v)

/-- The summary construction at the end of `run`:
`pages_processed = current_page - start_page` subtracts the *raw*
`start_page` argument; when that argument is `None`, the subtraction itself
raises `TypeError`. -/
def finishRun (start_page : Option Int) (current_page : Int)
    (total_processed : Nat) (total_pages : Int) : Except PyErr RunSummary :=
  match start_page with
  | none => Except.error PyErr.typeErr
  | some sp =>
    Except.ok { status := "success", total_processed := total_processed,
                pages_processed := current_page - sp, total_pages := total_pages }

/-- The `while current_page <= end_page` loop of `IngestionPipeline.run`,
driven by the remaining iteration count `fuel = end_page + 1 - current_page`
(so `fuel = 0` exactly when the loop guard fails).  Each iteration fetches
the page (recorded in the trace), breaks on an empty page, processes the
batch — re-raising any error immediately with the store as it was — and
otherwise advances. -/
def runLoop (m : SBERTModel) (g : Nat → Rat) (src : List PyDict) (ps : Int)
    (start_page : Option Int) (total_pages : Int) :
    Nat → Int → Nat → IngestState → Except PyErr RunSummary × IngestState
  | 0, current_page, total_processed, st =>
    (finishRun start_page current_page total_processed total_pages, st)
  | Nat.succ fuel, current_page, total_processed, st =>
    let batch_data := fetchPage src current_page ps
    let st1 := { st with fetched := st.fetched ++ [current_page] }
    if batch_data.isEmpty then
      (finishRun start_page current_page total_processed total_pages, st1)
    else
      match processBatch m g st1 batch_data with
      | Except.error e => (Except.error e, st1)
      | Except.ok (processed_count, st2) =>
        runLoop m g src ps start_page total_pages fuel (current_page + 1)
          (total_processed + processed_count) st2

/-- Model of `IngestionPipeline.run`: count the source documents, compute
`total_pages = ceil(total_docs / page_size)` (a `None` `page_size` raises
`TypeError` here, `0` raises `ZeroDivisionError`), clamp the page range, and
run the batch loop.  The returned state records the store and the fetch
trace even when an exception propagates. -/
def IngestionPipeline.run (m : SBERTModel) (g : Nat → Rat) (src : List PyDict)
    (page_size start_page end_page : Option Int) (st0 : IngestState) :
    Except PyErr RunSummary × IngestState :=
  let total_docs : Int := (countDocuments src : Int)
  match page_size with
  | none => (Except.error PyErr.typeErr, st0)
  | some ps =>
    if ps = 0 then (Except.error PyErr.zeroDiv, st0)
    else
      let total_pages := pyCeilDiv total_docs ps
      let current_page := clampStart start_page
      let end_page' := clampEnd total_pages end_page
      runLoop m g src ps start_page total_pages
        (end_page' + 1 - current_page).toNat current_page 0 st0

/-- The progress dict returned by `IngestionPipeline.get_progress`. -/
structure ProgressReport where
  total_documents : Nat
  processed_documents : Nat
  remaining_documents : Int
  progress_percentage : Rat
  deriving DecidableEq

/-- Model of `IngestionPipeline.get_progress`: compare the source count with the
vector-store count (both counts modelled from the spec, see the accessor
section); the percentage falls back to `0` when the source is empty. -/
def IngestionPipeline.get_progress (src : List PyDict) (store : List VDoc) :
    ProgressReport :=
  let total_docs := countDocuments src
  let processed_docs := store.length
  { total_documents := total_docs,
    processed_documents := processed_docs,
    remaining_documents := (total_docs : Int) - (processed_docs : Int),
    progress_percentage :=
      if 0 < total_docs then (processed_docs : Rat) / (total_docs : Rat) * 100 else 0 }

/-- The list `a :: a+1 :: ... :: a+n-1`, the pages a run visits. -/
def intRangeLen (a : Int) (n : Nat) : List Int :=
  (List.range n).map (fun i : Nat => a + (i : Int))

/-- The number of loop iterations a run performs when no page is empty and
no batch fails: from the clamped start page through the clamped end page. -/
def pagesPlanned (src : List PyDict) (ps : Int) (sp ep : Option Int) : Nat :=
  (clampEnd (pyCeilDiv (src.length : Int) ps) ep + 1 - clampStart sp).toNat


/-! ## Concrete instances used by witnesses and counterexamples -/

/-- A stand-in underlying `SentenceTransformer`: shape-correct zero vectors
(`encode` never looks at them anyway). -/
def mDefault : SBERTModel :=
  { modelEncode := fun ts => ts.map (fun _ => List.replicate original_embedding_size 0) }

/-- The all-zero random stream. -/
def gZero : Nat → Rat := fun _ => 0

/-- A random stream that is zero except at the position of the first bias
entry drawn by the first `encode` call. -/
def gBug : Nat → Rat := fun p =>
  if p = target_embedding_size * original_embedding_size then 1 else 0

/-- An empty pipeline state. -/
def stEmpty : IngestState := { store := [], rng := 0, fetched := [] }

/-- A 25-document source collection with `_id` fields (the spec's
end-to-end example size). -/
def src25 : List PyDict :=
  (List.range 25).map (fun i => [("_id", PyVal.int (i : Int)), ("name", PyVal.str "model")])

/-- A 6-document source collection with `_id` fields. -/
def src6 : List PyDict :=
  (List.range 6).map (fun i => [("_id", PyVal.int (i : Int))])

/-- A 4-document collection whose third document (on page 2 at page size 2)
lacks the `_id` key. -/
def srcBad : List PyDict :=
  [[("_id", PyVal.int 0)], [("_id", PyVal.int 1)],
   [("name", PyVal.str "broken")], [("_id", PyVal.int 3)]]

/-- A record that already has a `content` field. -/
def rec9 : PyDict := [("content", PyVal.str "old"), ("a", PyVal.int 1)]

/-- A two-document vector store. -/
def store2 : List VDoc :=
  [{ vid := PyVal.int 1, vtext := "t1", vembedding := [1, 2], vmetadata := none },
   { vid := PyVal.int 2, vtext := "t2", vembedding := [3], vmetadata := some (PyVal.str "m") }]

/-! ## Association-list dictionary lemmas -/

theorem dictGet_dictSet_same (d : PyDict) (k : String) (v : PyVal) :
    dictGet (dictSet d k v) k = some v := by
  induction d with
  | nil => simp [dictSet, dictGet]
  | cons kv rest ih =>
    obtain ⟨k', v'⟩ := kv
    by_cases h : k' = k <;> simp [dictSet, dictGet, h, ih]

theorem dictGet_dictSet_other (d : PyDict) (k : String) (v : PyVal)
    (k' : String) (h : k' ≠ k) : dictGet (dictSet d k v) k' = dictGet d k' := by
  induction d with
  | nil =>
    simp only [dictSet, dictGet]
    rw [if_neg (fun hk => h hk.symm)]
  | cons kv rest ih =>
    obtain ⟨k0, v0⟩ := kv
    by_cases h0 : k0 = k
    · subst h0
      simp only [dictSet, if_pos rfl, dictGet]
      rw [if_neg (fun hk => h hk.symm), if_neg (fun hk => h hk.symm)]
    · simp only [dictSet, if_neg h0, dictGet]
      by_cases h1 : k0 = k'
      · rw [if_pos h1, if_pos h1]
      · rw [if_neg h1, if_neg h1, ih]

/-! ## Character-level lemmas: the colon of a `key: value` fragment survives
every post-processing stage of `format_model_description`. -/

theorem mem_dropWhile_of_mem {α : Type} {p : α → Bool} {c : α} :
    ∀ {l : List α}, c ∈ l → p c = false → c ∈ l.dropWhile p
  | [], h, _ => absurd h (List.not_mem_nil c)
  | a :: as, h, hc => by
    by_cases ha : p a
    · rw [List.dropWhile_cons_of_pos ha]
      rcases List.mem_cons.1 h with rfl | h'
      · rw [ha] at hc; cases hc
      · exact mem_dropWhile_of_mem h' hc
    · rw [List.dropWhile_cons_of_neg ha]
      exact h

theorem colon_mem_removeBrackets {l : List Char} (h : ':' ∈ l) :
    ':' ∈ removeBrackets l :=
  List.mem_filter.2 ⟨h, by decide⟩

theorem colon_mem_underscoreToSpace {l : List Char} (h : ':' ∈ l) :
    ':' ∈ underscoreToSpace l :=
  List.mem_map.2 ⟨':', h, by decide⟩

theorem subAround_cons_pos (t : Char) (repl : List Char) (c : Char)
    (cs ds : List Char) (hdrop : (c :: cs).dropWhile isPySpace = t :: ds) :
    subAround t repl (c :: cs) = repl ++ subAround t repl (ds.dropWhile isPySpace) := by
  have hh : ((c :: cs).dropWhile isPySpace).head? = some t := by rw [hdrop]; rfl
  rw [subAround, dif_pos hh, hdrop]
  simp only [List.tail_cons]

theorem subAround_cons_neg (t : Char) (repl : List Char) (c : Char)
    (cs : List Char) (hh : ¬ ((c :: cs).dropWhile isPySpace).head? = some t) :
    subAround t repl (c :: cs) = c :: subAround t repl cs := by
  rw [subAround, dif_neg hh]

theorem mem_subAround (c t : Char) (repl : List Char)
    (hcs : isPySpace c = false) (hct : c = t → c ∈ repl) :
    ∀ l : List Char, c ∈ l → c ∈ subAround t repl l := by
  intro l
  induction l using subAround.induct t repl with
  | case1 =>
    intro h
    exact absurd h (List.not_mem_nil c)
  | case2 a as hh ih =>
    intro h
    obtain ⟨ds, hdrop⟩ : ∃ ds, (a :: as).dropWhile isPySpace = t :: ds := by
      match hds : (a :: as).dropWhile isPySpace with
      | [] => rw [hds] at hh; cases hh
      | d :: ds =>
        rw [hds] at hh
        simp only [List.head?_cons, Option.some.injEq] at hh
        exact ⟨ds, by rw [hh]⟩
    rw [subAround_cons_pos t repl a as ds hdrop]
    by_cases hc : c = t
    · exact List.mem_append.2 (Or.inl (hct hc))
    · have hih := ih
      rw [hdrop] at hih
      simp only [List.tail_cons] at hih
      refine List.mem_append.2 (Or.inr (hih ?_))
      have hsplit := List.takeWhile_append_dropWhile isPySpace (a :: as)
      rw [hdrop] at hsplit
      rw [← hsplit] at h
      rcases List.mem_append.1 h with h1 | h2
      · have := List.mem_takeWhile_imp h1
        rw [hcs] at this
        cases this
      · rcases List.mem_cons.1 h2 with h3 | h4
        · exact absurd h3 hc
        · exact mem_dropWhile_of_mem h4 hcs
  | case3 a as hh ih =>
    intro h
    rw [subAround_cons_neg t repl a as hh]
    rcases List.mem_cons.1 h with rfl | h'
    · exact List.mem_cons_self c _
    · exact List.mem_cons_of_mem a (ih h')

theorem mem_stripPy {c : Char} {l : List Char} (hcs : isPySpace c = false)
    (h : c ∈ l) : c ∈ stripPy l := by
  unfold stripPy
  rw [List.mem_reverse]
  exact mem_dropWhile_of_mem (List.mem_reverse.2 (mem_dropWhile_of_mem h hcs)) hcs

theorem splitSentences_ne_nil : ∀ l : List Char, splitSentences l ≠ [] := by
  intro l
  induction l using splitSentences.induct with
  | case1 => simp [splitSentences]
  | case2 cs ih => simp [splitSentences]
  | case3 c cs hne p ps heq ih =>
    rw [splitSentences, if_neg hne, heq]
    simp
  | case4 c cs hne heq ih =>
    rw [splitSentences, if_neg hne, heq]
    simp

theorem exists_mem_splitSentences {c : Char} (hcs : isPySpace c = false) :
    ∀ l : List Char, c ∈ l → ∃ p ∈ splitSentences l, c ∈ p := by
  intro l
  induction l using splitSentences.induct with
  | case1 =>
    intro h
    exact absurd h (List.not_mem_nil c)
  | case2 cs ih =>
    intro h
    rw [splitSentences, if_pos rfl]
    rcases List.mem_cons.1 h with rfl | h'
    · exact ⟨['.'], List.mem_cons_self _ _, List.mem_cons_self _ _⟩
    · obtain ⟨p, hp, hcp⟩ := ih (mem_dropWhile_of_mem h' hcs)
      exact ⟨p, List.mem_cons_of_mem _ hp, hcp⟩
  | case3 a as hne p ps heq ih =>
    intro h
    rw [splitSentences, if_neg hne, heq]
    rcases List.mem_cons.1 h with rfl | h'
    · exact ⟨c :: p, List.mem_cons_self _ _, List.mem_cons_self _ _⟩
    · obtain ⟨q, hq, hcq⟩ := ih h'
      rw [heq] at hq
      rcases List.mem_cons.1 hq with rfl | hq'
      · exact ⟨a :: q, List.mem_cons_self _ _, List.mem_cons_of_mem a hcq⟩
      · exact ⟨q, List.mem_cons_of_mem _ hq', hcq⟩
  | case4 a as hne heq ih =>
    intro h
    rcases List.mem_cons.1 h with rfl | h'
    · rw [splitSentences, if_neg hne, heq]
      exact ⟨[c], List.mem_cons_self _ _, List.mem_cons_self _ _⟩
    · obtain ⟨q, hq, _⟩ := ih h'
      rw [heq] at hq
      exact absurd hq (List.not_mem_nil q)

theorem colon_mem_capitalizePy {p : List Char} (h : ':' ∈ p) :
    ':' ∈ capitalizePy p := by
  match p with
  | [] => exact absurd h (List.not_mem_nil _)
  | a :: as =>
    rcases List.mem_cons.1 h with rfl | h'
    · exact List.mem_cons.2 (Or.inl (by decide))
    · refine List.mem_cons_of_mem _ (List.mem_map.2 ⟨':', h', ?_⟩)
      decide

theorem mem_intercalateChars (c : Char) (sep : List Char) :
    ∀ {ps : List (List Char)} {p : List Char}, p ∈ ps → c ∈ p →
      c ∈ intercalateChars sep ps
  | [], p, hp, _ => absurd hp (List.not_mem_nil p)
  | [q], p, hp, hc => by
    rcases List.mem_cons.1 hp with rfl | h'
    · exact hc
    · exact absurd h' (List.not_mem_nil p)
  | q :: r :: rest, p, hp, hc => by
    rcases List.mem_cons.1 hp with rfl | h'
    · show c ∈ (p ++ sep) ++ intercalateChars sep (r :: rest)
      exact List.mem_append.2 (Or.inl (List.mem_append.2 (Or.inl hc)))
    · show c ∈ (q ++ sep) ++ intercalateChars sep (r :: rest)
      exact List.mem_append.2 (Or.inr (mem_intercalateChars c sep h' hc))

theorem mem_pyJoin (c : Char) (sep : String) :
    ∀ {parts : List String} {s : String}, s ∈ parts → c ∈ s.data →
      c ∈ (pyJoin sep parts).data
  | [], s, hs, _ => absurd hs (List.not_mem_nil s)
  | [q], s, hs, hc => by
    rcases List.mem_cons.1 hs with rfl | h'
    · exact hc
    · exact absurd h' (List.not_mem_nil s)
  | q :: r :: rest, s, hs, hc => by
    rcases List.mem_cons.1 hs with rfl | h'
    · show c ∈ ((s ++ sep) ++ pyJoin sep (r :: rest)).data
      simp only [String.data_append]
      exact List.mem_append.2 (Or.inl (List.mem_append.2 (Or.inl hc)))
    · show c ∈ ((q ++ sep) ++ pyJoin sep (r :: rest)).data
      simp only [String.data_append]
      exact List.mem_append.2 (Or.inr (mem_pyJoin c sep h' hc))

theorem colon_mem_entryPart (k : String) (v : PyVal) :
    ':' ∈ (entryPart (k, v)).data := by
  match v with
  | PyVal.dict fs =>
    show ':' ∈ (if (k == "performance" || k == "hardware_requirements" ||
        k == "popularity") = true
      then specialKeyPart k fs
      else k ++ ": " ++ convert_value (PyVal.dict fs)).data
    by_cases hk : (k == "performance" || k == "hardware_requirements" ||
        k == "popularity") = true
    · rw [if_pos hk]
      unfold specialKeyPart
      simp only [String.data_append]
      refine List.mem_append.2 (Or.inl ?_)
      refine List.mem_append.2 (Or.inl ?_)
      exact List.mem_append.2 (Or.inr (by decide))
    · rw [if_neg hk]
      simp only [String.data_append]
      refine List.mem_append.2 (Or.inl ?_)
      exact List.mem_append.2 (Or.inr (by decide))
  | PyVal.str s =>
    show ':' ∈ ((k ++ ": ") ++ convert_value (PyVal.str s)).data
    simp only [String.data_append]
    exact List.mem_append.2 (Or.inl (List.mem_append.2 (Or.inr (by decide))))
  | PyVal.int n =>
    show ':' ∈ ((k ++ ": ") ++ convert_value (PyVal.int n)).data
    simp only [String.data_append]
    exact List.mem_append.2 (Or.inl (List.mem_append.2 (Or.inr (by decide))))
  | PyVal.float q =>
    show ':' ∈ ((k ++ ": ") ++ convert_value (PyVal.float q)).data
    simp only [String.data_append]
    exact List.mem_append.2 (Or.inl (List.mem_append.2 (Or.inr (by decide))))
  | PyVal.list es =>
    show ':' ∈ ((k ++ ": ") ++ convert_value (PyVal.list es)).data
    simp only [String.data_append]
    exact List.mem_append.2 (Or.inl (List.mem_append.2 (Or.inr (by decide))))

theorem colon_mem_dict_to_string {d : PyDict} (hd : d ≠ []) :
    ':' ∈ (dict_to_string d).data := by
  match d with
  | [] => exact absurd rfl hd
  | (k, v) :: rest =>
    rw [dict_to_string, List.map_cons]
    exact mem_pyJoin ':' ", " (List.mem_cons_self _ _) (colon_mem_entryPart k v)

theorem format_model_description_ne_empty {raw : String}
    (h : ':' ∈ raw.data) : format_model_description raw ≠ "" := by
  intro habs
  have h1 := colon_mem_removeBrackets h
  have h2 := colon_mem_underscoreToSpace h1
  have h3 := mem_subAround ':' ':' [':', ' '] (by decide) (fun _ => by decide) _ h2
  have h4 := mem_subAround ':' ',' ['.', ' '] (by decide) (fun hc => by cases hc) _ h3
  have h5 := mem_stripPy (by decide) h4
  obtain ⟨p, hp, hcp⟩ := exists_mem_splitSentences (by decide) _ h5
  have h6 := mem_intercalateChars ':' ['.', ' ']
    (List.mem_map_of_mem capitalizePy hp) (colon_mem_capitalizePy hcp)
  have hdata : (format_model_description raw).data =
      intercalateChars ['.', ' ']
        ((splitSentences (stripPy (subAround ',' ['.', ' ']
          (subAround ':' [':', ' ']
            (underscoreToSpace (removeBrackets raw.data)))))).map capitalizePy) := rfl
  rw [habs] at hdata
  rw [← hdata] at h6
  exact absurd h6 (List.not_mem_nil _)

/-! ## Claim C8 — normalization totality and non-emptiness -/

/-- C8: normalization of a record never propagates an exception (the
modelled `models_to_text` is total — in this embedding the structured
flattening never raises, so the `except` fallback is never needed), it
returns the record with a string `content`, and the normalized text is
non-empty whenever the input record is non-empty. -/
theorem C8_models_to_text_total_and_nonempty (d : PyDict) (hd : d ≠ []) :
    models_to_text [d] =
      [dictSet d "content" (PyVal.str (normalizedContent d))] ∧
    normalizedContent d ≠ "" := by
  constructor
  · rfl
  · exact format_model_description_ne_empty (colon_mem_dict_to_string hd)

/-- Witness for C8 at a concrete one-field record. -/
theorem C8_models_to_text_total_and_nonempty_witness :
    models_to_text [[("name", PyVal.str "resnet")]] =
      [dictSet [("name", PyVal.str "resnet")] "content"
        (PyVal.str (normalizedContent [("name", PyVal.str "resnet")]))] ∧
    normalizedContent [("name", PyVal.str "resnet")] ≠ "" :=
  C8_models_to_text_total_and_nonempty [("name", PyVal.str "resnet")]
    (List.cons_ne_nil _ _)

/-! ## Claim C9 — in-place mutation of the source records -/

/-- C9: `models_to_text` writes the normalized text into each record under
`content` — overwriting any pre-existing `content` value — and returns the
pointwise-updated input list (the extensional rendering of mutating the
records of the argument list in place and returning that same list), leaving
every other field of every record unchanged. -/
theorem C9_models_to_text_mutates_records (ds : List PyDict) :
    (models_to_text ds).length = ds.length ∧
    ∀ (i : Nat) (d : PyDict), ds[i]? = some d →
      (models_to_text ds)[i]? =
        some (dictSet d "content" (PyVal.str (normalizedContent d))) ∧
      dictGet (dictSet d "content" (PyVal.str (normalizedContent d))) "content" =
        some (PyVal.str (normalizedContent d)) ∧
      ∀ k, k ≠ "content" →
        dictGet (dictSet d "content" (PyVal.str (normalizedContent d))) k =
          dictGet d k := by
  refine ⟨by simp [models_to_text], ?_⟩
  intro i d hi
  refine ⟨?_, dictGet_dictSet_same d "content" _, ?_⟩
  · rw [models_to_text, List.getElem?_map, hi]
    rfl
  · intro k hk
    exact dictGet_dictSet_other d "content" _ k hk

/-- Witness for C9 at a record that already has a `content` field. -/
theorem C9_models_to_text_mutates_records_witness :
    (models_to_text [rec9])[0]? =
      some (dictSet rec9 "content" (PyVal.str (normalizedContent rec9))) ∧
    dictGet (dictSet rec9 "content" (PyVal.str (normalizedContent rec9))) "content" =
      some (PyVal.str (normalizedContent rec9)) ∧
    ∀ k, k ≠ "content" →
      dictGet (dictSet rec9 "content" (PyVal.str (normalizedContent rec9))) k =
        dictGet rec9 k :=
  (C9_models_to_text_mutates_records [rec9]).2 0 rec9 rfl

/-! ## Embedding-shape lemmas for `SBERTModel.encode` -/

theorem encode_output_shape (m : SBERTModel) (g : Nat → Rat) (s : Nat)
    (texts : List String) :
    (SBERTModel.encode m g s texts).1 =
      [List.zipWith (fun wrow bi => dotV wrow
          ((List.range original_embedding_size).map
            (fun c => g (s + nnLinearConsumed + c))) + bi)
        (nnLinearWeight g s) (nnLinearBias g s)] ∧
    (SBERTModel.encode m g s texts).2 = s + encodeConsumed := by
  constructor
  · show linearForward (nnLinearWeight g s) (nnLinearBias g s)
        (torchRandnRow g (s + nnLinearConsumed)) = _
    rw [torchRandnRow, show List.range 1 = [0] from by decide]
    simp [linearForward]
  · rfl

theorem zipWith_map_range_head? {α β γ : Type} (f : α → β → γ) (p : Nat → α)
    (q : Nat → β) (n : Nat) (hn : n ≠ 0) :
    (List.zipWith f ((List.range n).map p) ((List.range n).map q)).head? =
      some (f (p 0) (q 0)) := by
  match n with
  | 0 => exact absurd rfl hn
  | Nat.succ k =>
    rw [List.range_succ_eq_map]
    simp

theorem dotV_zero_left {u : List Rat} (hu : ∀ a ∈ u, a = 0) :
    ∀ v : List Rat, dotV u v = 0 := by
  induction u with
  | nil => intro v; simp [dotV]
  | cons a as ih =>
    intro v
    match v with
    | [] => simp [dotV]
    | b :: bs =>
      have ha : a = 0 := hu a (List.mem_cons_self _ _)
      have hrest : ∀ x ∈ as, x = 0 := fun x hx => hu x (List.mem_cons_of_mem _ hx)
      have htail := ih hrest bs
      simp only [dotV, List.zipWith_cons_cons, List.sum_cons] at htail ⊢
      rw [ha, htail]
      ring

/-! ## Claim C1 — embedding shape (code bug) -/

/-- C1 (code-bug evidence): for every input batch, `SBERTModel.encode`
returns exactly ONE vector — never one per input string — and the output
does not depend on the input texts at all: `project_embeddings` projects the
simulated `torch.randn(1, 384)` row it creates internally, discarding the
real embeddings.  On the failing input `["a", "b"]` (N = 2) the code returns
1 vector where the claim requires 2. -/
theorem C1_encode_returns_one_vector (m : SBERTModel) (g : Nat → Rat) (s : Nat)
    (texts : List String) :
    ((SBERTModel.encode m g s texts).1).length = 1 ∧
    (SBERTModel.encode m g s texts).1 = (SBERTModel.encode m g s []).1 := by
  constructor
  · show (linearForward (nnLinearWeight g s) (nnLinearBias g s)
        (torchRandnRow g (s + nnLinearConsumed))).length = 1
    simp [linearForward, torchRandnRow]
  · rfl


/-! ## Claim C2 — embedding determinism (code bug) -/

/-- C2 (code-bug evidence): two successive `encode` calls for the same text
on the same model instance return different vectors: the projection layer is
randomly regenerated on every call (and the projected row is itself a fresh
`torch.randn` draw), so the second call consumes a later segment of the
random stream.  Witnessed on the stream `gBug`, where the first call's
output row starts with `1` and the second call's with `0`. -/
theorem C2_encode_not_deterministic :
    (SBERTModel.encode mDefault gBug 0 ["hello"]).1 ≠
      (SBERTModel.encode mDefault gBug
        (SBERTModel.encode mDefault gBug 0 ["hello"]).2 ["hello"]).1 := by
  intro heq
  have hnum : target_embedding_size * original_embedding_size = 393216 := by
    norm_num [target_embedding_size, original_embedding_size]
  have horig : original_embedding_size = 384 := rfl
  have henc : encodeConsumed = 394624 := by
    norm_num [encodeConsumed, nnLinearConsumed, target_embedding_size,
      original_embedding_size]
  have hgz : ∀ p : Nat, p ≠ 393216 → gBug p = 0 := by
    intro p hp
    simp [gBug, hnum, hp]
  have hgo : gBug 393216 = 1 := by
    simp [gBug, hnum]
  obtain ⟨hshape1, hcursor1⟩ := encode_output_shape mDefault gBug 0 ["hello"]
  rw [hcursor1] at heq
  obtain ⟨hshape2, _⟩ :=
    encode_output_shape mDefault gBug (0 + encodeConsumed) ["hello"]
  rw [hshape1, hshape2] at heq
  injection heq with hrow _
  have hw1 : nnLinearWeight gBug 0 =
      (List.range target_embedding_size).map (fun i =>
        (List.range original_embedding_size).map (fun j =>
          gBug (0 + i * original_embedding_size + j))) := rfl
  have hb1 : nnLinearBias gBug 0 =
      (List.range target_embedding_size).map (fun i =>
        gBug (0 + target_embedding_size * original_embedding_size + i)) := rfl
  have hw2 : nnLinearWeight gBug (0 + encodeConsumed) =
      (List.range target_embedding_size).map (fun i =>
        (List.range original_embedding_size).map (fun j =>
          gBug (0 + encodeConsumed + i * original_embedding_size + j))) := rfl
  have hb2 : nnLinearBias gBug (0 + encodeConsumed) =
      (List.range target_embedding_size).map (fun i =>
        gBug (0 + encodeConsumed + target_embedding_size * original_embedding_size + i)) := rfl
  rw [hw1, hb1, hw2, hb2] at hrow
  have hh := congrArg List.head? hrow
  rw [zipWith_map_range_head? _ _ _ target_embedding_size
        (by norm_num [target_embedding_size]),
      zipWith_map_range_head? _ _ _ target_embedding_size
        (by norm_num [target_embedding_size])] at hh
  injection hh with hvals
  have hzero1 : dotV ((List.range original_embedding_size).map (fun j =>
      gBug (0 + 0 * original_embedding_size + j)))
      ((List.range original_embedding_size).map (fun c =>
        gBug (0 + nnLinearConsumed + c))) = 0 := by
    refine dotV_zero_left ?_ _
    intro a ha
    obtain ⟨j, hj, rfl⟩ := List.mem_map.1 ha
    have hjlt := List.mem_range.1 hj
    rw [horig] at hjlt
    refine hgz _ ?_
    omega
  have hzero2 : dotV ((List.range original_embedding_size).map (fun j =>
      gBug (0 + encodeConsumed + 0 * original_embedding_size + j)))
      ((List.range original_embedding_size).map (fun c =>
        gBug (0 + encodeConsumed + nnLinearConsumed + c))) = 0 := by
    refine dotV_zero_left ?_ _
    intro a ha
    obtain ⟨j, hj, rfl⟩ := List.mem_map.1 ha
    have hjlt := List.mem_range.1 hj
    rw [horig] at hjlt
    refine hgz _ ?_
    rw [henc]
    omega
  have hbias1 : gBug (0 + target_embedding_size * original_embedding_size + 0) = 1 := by
    rw [show 0 + target_embedding_size * original_embedding_size + 0 =
        target_embedding_size * original_embedding_size from by omega, hnum]
    exact hgo
  have hbias2 : gBug (0 + encodeConsumed +
      target_embedding_size * original_embedding_size + 0) = 0 := by
    refine hgz _ ?_
    rw [henc, hnum]
    omega
  rw [hzero1, hzero2, hbias1, hbias2] at hvals
  norm_num at hvals

/-! ## Claim C4 — progress report -/

/-- C4: `get_progress` reports the source count, the vector-store count,
their difference, and the percentage `processed / total * 100` — multiplied
out to avoid stating a division — with `0` (and no exception) when the
source collection is empty. -/
theorem C4_get_progress_fields (src : List PyDict) (store : List VDoc) :
    (IngestionPipeline.get_progress src store).total_documents = src.length ∧
    (IngestionPipeline.get_progress src store).processed_documents = store.length ∧
    (IngestionPipeline.get_progress src store).remaining_documents =
      (src.length : Int) - (store.length : Int) ∧
    (0 < src.length →
      (IngestionPipeline.get_progress src store).progress_percentage *
        (src.length : Rat) = (store.length : Rat) * 100) ∧
    (src.length = 0 →
      (IngestionPipeline.get_progress src store).progress_percentage = 0) := by
  refine ⟨rfl, rfl, rfl, ?_, ?_⟩
  · intro hpos
    have ht : ((src.length : Rat)) ≠ 0 := by
      have hq : (0 : Rat) < (src.length : Rat) := by exact_mod_cast hpos
      exact ne_of_gt hq
    show (if 0 < countDocuments src
        then (store.length : Rat) / (countDocuments src : Rat) * 100 else 0) *
        (src.length : Rat) = (store.length : Rat) * 100
    rw [show countDocuments src = src.length from rfl, if_pos hpos]
    field_simp
  · intro hz
    show (if 0 < countDocuments src
        then (store.length : Rat) / (countDocuments src : Rat) * 100 else 0) = 0
    rw [show countDocuments src = src.length from rfl, hz]
    simp

/-- Witness for C4 at a concrete non-empty collection. -/
theorem C4_get_progress_fields_witness :
    0 < src25.length ∧
    (IngestionPipeline.get_progress src25 store2).progress_percentage *
      (src25.length : Rat) = (store2.length : Rat) * 100 :=
  ⟨by decide, (C4_get_progress_fields src25 store2).2.2.2.1 (by decide)⟩

/-! ## Claim C6 — partial update preserves the embedding -/

/-- C6: `update_vector` with a `None` or empty embedding argument leaves
every stored embedding unchanged (and ids and texts untouched), while the
metadata of the updated document is replaced wholesale by the new value:
every document is returned either unchanged or with only its metadata
replaced. -/
theorem C6_update_vector_preserves_embedding (store : List VDoc) (vid : PyVal)
    (md : PyVal) (emb : Option (List Rat)) (h : emb = none ∨ emb = some []) :
    ((update_vector store vid md emb).map (fun d => d.vembedding) =
      store.map (fun d => d.vembedding)) ∧
    ((update_vector store vid md emb).map (fun d => d.vid) =
      store.map (fun d => d.vid)) ∧
    ((update_vector store vid md emb).map (fun d => d.vtext) =
      store.map (fun d => d.vtext)) ∧
    ∀ (i : Nat) (d : VDoc), store[i]? = some d →
      (update_vector store vid md emb)[i]? = some d ∨
      (update_vector store vid md emb)[i]? =
        some { d with vmetadata := some md } := by
  have hemb : ∀ d : VDoc, applyUpdate md emb d = { d with vmetadata := some md } := by
    intro d
    rcases h with rfl | rfl <;> rfl
  induction store with
  | nil =>
    refine ⟨rfl, rfl, rfl, ?_⟩
    intro i d hi
    simp at hi
  | cons a rest ih =>
    rw [update_vector]
    by_cases ha : PyVal.beqV a.vid vid
    · rw [if_pos ha, hemb a]
      refine ⟨by simp, by simp, by simp, ?_⟩
      intro i d hi
      match i with
      | 0 =>
        simp only [List.getElem?_cons_zero, Option.some.injEq] at hi
        subst hi
        right
        simp
      | Nat.succ j =>
        left
        simpa using hi
    · rw [if_neg ha]
      obtain ⟨h1, h2, h3, h4⟩ := ih
      refine ⟨by simp [h1], by simp [h2], by simp [h3], ?_⟩
      intro i d hi
      match i with
      | 0 =>
        simp only [List.getElem?_cons_zero, Option.some.injEq] at hi
        subst hi
        left
        simp
      | Nat.succ j =>
        have hj := h4 j d (by simpa using hi)
        rcases hj with hl | hr
        · left
          simpa using hl
        · right
          simpa using hr

/-- Witness for C6: updating a concrete store with `embedding = None`. -/
theorem C6_update_vector_preserves_embedding_witness :
    ((update_vector store2 (PyVal.int 2) (PyVal.str "new") none).map
        (fun d => d.vembedding) = store2.map (fun d => d.vembedding)) ∧
    ((update_vector store2 (PyVal.int 2) (PyVal.str "new") none).map
        (fun d => d.vid) = store2.map (fun d => d.vid)) ∧
    ((update_vector store2 (PyVal.int 2) (PyVal.str "new") none).map
        (fun d => d.vtext) = store2.map (fun d => d.vtext)) ∧
    ∀ (i : Nat) (d : VDoc), store2[i]? = some d →
      (update_vector store2 (PyVal.int 2) (PyVal.str "new") none)[i]? = some d ∨
      (update_vector store2 (PyVal.int 2) (PyVal.str "new") none)[i]? =
        some { d with vmetadata := some (PyVal.str "new") } :=
  C6_update_vector_preserves_embedding store2 (PyVal.int 2) (PyVal.str "new")
    none (Or.inl rfl)

/-! ## Batch-processing lemmas -/

theorem mapME_ok {α β : Type} (f : α → Except PyErr β) :
    ∀ {l : List α}, (∀ x ∈ l, ∃ y, f x = Except.ok y) →
      ∃ ys, mapME f l = Except.ok ys ∧ ys.length = l.length
  | [], _ => ⟨[], rfl, rfl⟩
  | x :: xs, h => by
    obtain ⟨y, hy⟩ := h x (List.mem_cons_self _ _)
    obtain ⟨ys, hys, hlen⟩ :=
      mapME_ok f (fun z hz => h z (List.mem_cons_of_mem _ hz))
    refine ⟨y :: ys, ?_, by simp [hlen]⟩
    rw [mapME, hy, hys]

theorem mapME_err {α β : Type} (f : α → Except PyErr β) (e : PyErr) :
    ∀ {l : List α}, (∀ y ∈ l, (∃ b, f y = Except.ok b) ∨ f y = Except.error e) →
      (∃ x ∈ l, f x = Except.error e) → mapME f l = Except.error e
  | [], _, hex => by
    obtain ⟨x, hx, _⟩ := hex
    exact absurd hx (List.not_mem_nil x)
  | x :: xs, hall, hex => by
    rw [mapME]
    rcases hfx : f x with e' | y
    · obtain ⟨x', hx', hfx'⟩ := hex
      rcases List.mem_cons.1 hx' with rfl | hmem
      · rw [hfx] at hfx'
        rw [← Except.error.inj hfx']
      · rcases hall x (List.mem_cons_self _ _) with ⟨b, hb⟩ | hb
        · rw [hfx] at hb
          cases hb
        · rw [hfx] at hb
          rw [← Except.error.inj hb]
    · have hxs : mapME f xs = Except.error e := by
        refine mapME_err f e (fun z hz => hall z (List.mem_cons_of_mem _ hz)) ?_
        obtain ⟨x', hx', hfx'⟩ := hex
        rcases List.mem_cons.1 hx' with rfl | hmem
        · rw [hfx] at hfx'
          cases hfx'
        · exact ⟨x', hmem, hfx'⟩
      rw [hxs]

theorem zip3V_nil_right {α β γ : Type} (as : List α) (bs : List β) :
    zip3V as bs ([] : List γ) = [] := by
  cases as <;> cases bs <;> rfl

theorem mem_models_to_text {batch : List PyDict} {item : PyDict}
    (h : item ∈ models_to_text batch) :
    ∃ d ∈ batch, item = dictSet d "content" (PyVal.str (normalizedContent d)) := by
  obtain ⟨d, hd, rfl⟩ := List.mem_map.1 h
  exact ⟨d, hd, rfl⟩

/-- Under a well-formed batch (non-empty, every document has `_id`),
`_process_batch` inserts exactly one vector document (the `zip` against the
single projected embedding truncates the batch) and advances the random
cursor by one `encode` call. -/
theorem processBatch_ok (m : SBERTModel) (g : Nat → Rat) (st : IngestState)
    (batch : List PyDict) (hne : batch ≠ [])
    (hid : ∀ d ∈ batch, (dictGet d "_id").isSome = true) :
    ∃ vd : VDoc, processBatch m g st batch =
      Except.ok (1, { st with store := st.store ++ [vd],
                              rng := st.rng + encodeConsumed }) := by
  have hoki : ∀ item ∈ models_to_text batch, ∃ y,
      (match dictGet item "_id" with
        | some v => Except.ok v
        | none => (Except.error PyErr.keyErr : Except PyErr PyVal)) =
        Except.ok y := by
    intro item hitem
    obtain ⟨d, hd, rfl⟩ := mem_models_to_text hitem
    have hother := dictGet_dictSet_other d "content"
      (PyVal.str (normalizedContent d)) "_id" (by decide)
    have hsd := hid d hd
    rcases hsome : dictGet d "_id" with _ | v
    · rw [hsome] at hsd
      simp at hsd
    · exact ⟨v, by rw [hother, hsome]⟩
  obtain ⟨ids, hids, hlen1⟩ := mapME_ok
    (fun item => match dictGet item "_id" with
      | some v => Except.ok v
      | none => Except.error PyErr.keyErr) hoki
  have hokt : ∀ item ∈ models_to_text batch, ∃ y,
      (match dictGet item "content" with
        | some (PyVal.str s) => Except.ok s
        | some _ => (Except.error PyErr.typeErr : Except PyErr String)
        | none => Except.error PyErr.keyErr) = Except.ok y := by
    intro item hitem
    obtain ⟨d, hd, rfl⟩ := mem_models_to_text hitem
    exact ⟨normalizedContent d, by rw [dictGet_dictSet_same]⟩
  obtain ⟨texts, htexts, hlen2⟩ := mapME_ok
    (fun item => match dictGet item "content" with
      | some (PyVal.str s) => Except.ok s
      | some _ => Except.error PyErr.typeErr
      | none => Except.error PyErr.keyErr) hokt
  have hlenb : (models_to_text batch).length = batch.length := by
    simp [models_to_text]
  obtain ⟨i0, ids', rfl⟩ : ∃ i0 ids', ids = i0 :: ids' := by
    match ids, hlen1 with
    | [], h0 =>
      rw [hlenb] at h0
      exact absurd (List.length_eq_zero.1 h0.symm) hne
    | i0 :: ids', _ => exact ⟨i0, ids', rfl⟩
  obtain ⟨t0, ts', rfl⟩ : ∃ t0 ts', texts = t0 :: ts' := by
    match texts, hlen2 with
    | [], h0 =>
      rw [hlenb] at h0
      exact absurd (List.length_eq_zero.1 h0.symm) hne
    | t0 :: ts', _ => exact ⟨t0, ts', rfl⟩
  obtain ⟨hshape, hcursor⟩ := encode_output_shape m g st.rng (t0 :: ts')
  refine ⟨{ vid := i0, vtext := t0,
            vembedding := List.zipWith (fun wrow bi => dotV wrow
              ((List.range original_embedding_size).map
                (fun c => g (st.rng + nnLinearConsumed + c))) + bi)
              (nnLinearWeight g st.rng) (nnLinearBias g st.rng),
            vmetadata := none }, ?_⟩
  simp only [processBatch]
  simp only [hids, htexts]
  rw [hshape, hcursor]
  rw [zip3V, zip3V_nil_right]
  simp [insert_vectors]

/-- A batch containing a document without `_id` makes `_process_batch` raise
`KeyError` before anything is inserted. -/
theorem processBatch_err (m : SBERTModel) (g : Nat → Rat) (st : IngestState)
    (batch : List PyDict)
    (hbad : ∃ d ∈ batch, dictGet d "_id" = none) :
    processBatch m g st batch = Except.error PyErr.keyErr := by
  obtain ⟨d, hd, hnone⟩ := hbad
  have hids : mapME
      (fun item => match dictGet item "_id" with
        | some v => Except.ok v
        | none => Except.error PyErr.keyErr)
      (models_to_text batch) = Except.error PyErr.keyErr := by
    refine mapME_err _ _ ?_ ?_
    · intro item hitem
      rcases hsome : dictGet item "_id" with _ | v
      · right
        rfl
      · left
        exact ⟨v, rfl⟩
    · refine ⟨dictSet d "content" (PyVal.str (normalizedContent d)),
        List.mem_map_of_mem _ hd, ?_⟩
      have hother := dictGet_dictSet_other d "content"
        (PyVal.str (normalizedContent d)) "_id" (by decide)
      show (match dictGet (dictSet d "content" (PyVal.str (normalizedContent d)))
          "_id" with
        | some v => Except.ok v
        | none => (Except.error PyErr.keyErr : Except PyErr PyVal)) =
        Except.error PyErr.keyErr
      rw [hother, hnone]
  simp only [processBatch]
  rw [hids]

/-! ## Page-range and pagination lemmas -/

theorem intRangeLen_zero (a : Int) : intRangeLen a 0 = [] := rfl

theorem intRangeLen_succ (a : Int) (n : Nat) :
    intRangeLen a (n + 1) = a :: intRangeLen (a + 1) n := by
  unfold intRangeLen
  rw [List.range_succ_eq_map, List.map_cons, List.map_map]
  congr 1
  · simp
  · refine List.map_congr_left ?_
    intro i _
    show a + ((i + 1 : Nat) : Int) = a + 1 + (i : Int)
    push_cast
    ring

theorem intRangeLen_one (a : Int) : intRangeLen a 1 = [a] := by
  rw [intRangeLen_succ, intRangeLen_zero]

theorem mem_intRangeLen {a p : Int} {n : Nat} :
    p ∈ intRangeLen a n ↔ ∃ i : Nat, i < n ∧ p = a + (i : Int) := by
  unfold intRangeLen
  constructor
  · intro hp
    obtain ⟨i, hi, rfl⟩ := List.mem_map.1 hp
    exact ⟨i, List.mem_range.1 hi, rfl⟩
  · rintro ⟨i, hi, rfl⟩
    exact List.mem_map_of_mem _ (List.mem_range.2 hi)

theorem fetchPage_subset {src : List PyDict} {p ps : Int} {d : PyDict}
    (h : d ∈ fetchPage src p ps) : d ∈ src :=
  List.mem_of_mem_drop (List.mem_of_mem_take h)

theorem fetchPage_ne_nil {src : List PyDict} {p ps : Int} (hps : 1 ≤ ps)
    (hp : 1 ≤ p) (hlt : (p - 1) * ps < (src.length : Int)) :
    fetchPage src p ps ≠ [] := by
  intro hnil
  have hlen := congrArg List.length hnil
  rw [fetchPage, List.length_take, List.length_drop] at hlen
  have hskip : 0 ≤ (p - 1) * ps := mul_nonneg (by omega) (by omega)
  simp only [List.length_nil] at hlen
  omega

theorem page_le_totalPages_lt {src : List PyDict} {p ps : Int} (hps : 1 ≤ ps)
    (hp1 : 1 ≤ p) (hple : p ≤ pyCeilDiv (src.length : Int) ps) :
    (p - 1) * ps < (src.length : Int) := by
  rw [pyCeilDiv, Int.fdiv_eq_ediv _ (by omega)] at hple
  have hq : (-(src.length : Int)) / ps < 1 - p := by omega
  have hlt := (Int.ediv_lt_iff_lt_mul (by omega : (0 : Int) < ps)).1 hq
  have hrw : (1 - p) * ps = -((p - 1) * ps) := by ring
  omega

/-! ## Run-loop characterisation -/

/-- When every page in the `fuel` window is non-empty and well-formed, the
loop processes them all in order: it fetches exactly the pages
`current .. current+fuel-1`, inserts one vector document per page, consumes
one `encode` worth of randomness per page, and ends with the summary
construction at cursor `current + fuel`. -/
theorem runLoop_ok (m : SBERTModel) (g : Nat → Rat) (src : List PyDict)
    (ps : Int) (sp : Option Int) (tpg : Int) :
    ∀ (fuel : Nat) (current : Int) (tp : Nat) (st : IngestState),
    (∀ p ∈ intRangeLen current fuel,
      fetchPage src p ps ≠ [] ∧
      ∀ d ∈ fetchPage src p ps, (dictGet d "_id").isSome = true) →
    ∃ tl : List VDoc,
      runLoop m g src ps sp tpg fuel current tp st =
        (finishRun sp (current + (fuel : Int)) (tp + fuel) tpg,
         { store := st.store ++ tl, rng := st.rng + fuel * encodeConsumed,
           fetched := st.fetched ++ intRangeLen current fuel }) ∧
      tl.length = fuel := by
  intro fuel
  induction fuel with
  | zero =>
    intro current tp st _
    refine ⟨[], ?_, rfl⟩
    rw [runLoop]
    simp [intRangeLen_zero]
  | succ fuel ih =>
    intro current tp st h
    obtain ⟨hne, hid⟩ := h current (by
      rw [intRangeLen_succ]; exact List.mem_cons_self _ _)
    have hbatch : (fetchPage src current ps).isEmpty = false := by
      rw [List.isEmpty_eq_false]
      exact hne
    obtain ⟨vd, hpb⟩ := processBatch_ok m g
      { st with fetched := st.fetched ++ [current] }
      (fetchPage src current ps) hne hid
    have hgood' : ∀ p ∈ intRangeLen (current + 1) fuel,
        fetchPage src p ps ≠ [] ∧
        ∀ d ∈ fetchPage src p ps, (dictGet d "_id").isSome = true := by
      intro p hp
      refine h p ?_
      rw [intRangeLen_succ]
      exact List.mem_cons_of_mem _ hp
    obtain ⟨tl', hrec, hlen⟩ := ih (current + 1) (tp + 1) _ hgood'
    refine ⟨vd :: tl', ?_, by simp [hlen]⟩
    rw [runLoop]
    simp only [hbatch, Bool.false_eq_true, if_false, hpb]
    rw [hrec]
    rw [Prod.mk.injEq]
    constructor
    · have hx : current + 1 + (fuel : Int) = current + ((fuel + 1 : Nat) : Int) := by
        push_cast
        ring
      have hy : tp + 1 + fuel = tp + (fuel + 1) := by omega
      rw [hx, hy]
    · show ({ store := (st.store ++ [vd]) ++ tl',
              rng := (st.rng + encodeConsumed) + fuel * encodeConsumed,
              fetched := (st.fetched ++ [current]) ++ intRangeLen (current + 1) fuel }
            : IngestState) = _
      rw [IngestState.mk.injEq]
      refine ⟨by simp, by ring, ?_⟩
      rw [intRangeLen_succ]
      simp

/-- When pages `current .. current+j-1` are well-formed but page `current+j`
(still inside the loop window) contains a document without `_id`, the loop
re-raises the `KeyError` at that page: the trace stops at `current+j`, the
earlier pages' single inserts are kept, and nothing of the failing page is
inserted. -/
theorem runLoop_err (m : SBERTModel) (g : Nat → Rat) (src : List PyDict)
    (ps : Int) (sp : Option Int) (tpg : Int) :
    ∀ (j fuel : Nat) (current : Int) (tp : Nat) (st : IngestState),
    j < fuel →
    (∀ p ∈ intRangeLen current j,
      fetchPage src p ps ≠ [] ∧
      ∀ d ∈ fetchPage src p ps, (dictGet d "_id").isSome = true) →
    (∃ d ∈ fetchPage src (current + (j : Int)) ps, dictGet d "_id" = none) →
    ∃ tl : List VDoc,
      runLoop m g src ps sp tpg fuel current tp st =
        (Except.error PyErr.keyErr,
         { store := st.store ++ tl, rng := st.rng + j * encodeConsumed,
           fetched := st.fetched ++ intRangeLen current (j + 1) }) ∧
      tl.length = j := by
  intro j
  induction j with
  | zero =>
    intro fuel current tp st hjf _ hbad
    match fuel, hjf with
    | Nat.succ fuel, _ =>
      have hbad' : ∃ d ∈ fetchPage src current ps, dictGet d "_id" = none := by
        simpa using hbad
      have hne : fetchPage src current ps ≠ [] := by
        obtain ⟨d, hd, _⟩ := hbad'
        intro hnil
        rw [hnil] at hd
        exact absurd hd (List.not_mem_nil d)
      have hbatch : (fetchPage src current ps).isEmpty = false := by
        rw [List.isEmpty_eq_false]
        exact hne
      have hpe := processBatch_err m g
        { st with fetched := st.fetched ++ [current] }
        (fetchPage src current ps) hbad'
      refine ⟨[], ?_, rfl⟩
      rw [runLoop]
      simp only [hbatch, Bool.false_eq_true, if_false, hpe]
      rw [Prod.mk.injEq]
      refine ⟨rfl, ?_⟩
      rw [IngestState.mk.injEq]
      refine ⟨by simp, by simp, ?_⟩
      rw [intRangeLen_one]
  | succ j ih =>
    intro fuel current tp st hjf hgood hbad
    match fuel, hjf with
    | Nat.succ fuel, hjf =>
      obtain ⟨hne, hid⟩ := hgood current (by
        rw [intRangeLen_succ]; exact List.mem_cons_self _ _)
      have hbatch : (fetchPage src current ps).isEmpty = false := by
        rw [List.isEmpty_eq_false]
        exact hne
      obtain ⟨vd, hpb⟩ := processBatch_ok m g
        { st with fetched := st.fetched ++ [current] }
        (fetchPage src current ps) hne hid
      have hgood' : ∀ p ∈ intRangeLen (current + 1) j,
          fetchPage src p ps ≠ [] ∧
          ∀ d ∈ fetchPage src p ps, (dictGet d "_id").isSome = true := by
        intro p hp
        refine hgood p ?_
        rw [intRangeLen_succ]
        exact List.mem_cons_of_mem _ hp
      have hbad' : ∃ d ∈ fetchPage src (current + 1 + (j : Int)) ps,
          dictGet d "_id" = none := by
        have harith : current + 1 + (j : Int) = current + ((j + 1 : Nat) : Int) := by
          push_cast
          ring
        rw [harith]
        exact hbad
      obtain ⟨tl', hrec, hlen⟩ :=
        ih fuel (current + 1) (tp + 1) _ (by omega) hgood' hbad'
      refine ⟨vd :: tl', ?_, by simp [hlen]⟩
      rw [runLoop]
      simp only [hbatch, Bool.false_eq_true, if_false, hpb]
      rw [hrec]
      rw [Prod.mk.injEq]
      refine ⟨rfl, ?_⟩
      show ({ store := (st.store ++ [vd]) ++ tl',
              rng := (st.rng + encodeConsumed) + j * encodeConsumed,
              fetched := (st.fetched ++ [current]) ++ intRangeLen (current + 1) (j + 1) }
            : IngestState) = _
      rw [IngestState.mk.injEq]
      refine ⟨by simp, by ring, ?_⟩
      rw [intRangeLen_succ current (j + 1)]
      simp

/-- Unfolding lemma: `run` with a non-zero concrete page size reduces to the loop over the
clamped range. -/
theorem run_unfold (m : SBERTModel) (g : Nat → Rat) (src : List PyDict)
    (ps : Int) (sp ep : Option Int) (st : IngestState) (hps : ¬ ps = 0) :
    IngestionPipeline.run m g src (some ps) sp ep st =
      runLoop m g src ps sp (pyCeilDiv (src.length : Int) ps)
        (pagesPlanned src ps sp ep) (clampStart sp) 0 st := by
  simp only [IngestionPipeline.run, countDocuments, pagesPlanned]
  rw [if_neg hps]

theorem pages_in_plan_good (src : List PyDict) (ps : Int) (sp ep : Option Int)
    (hps : 1 ≤ ps)
    (hid : src.all (fun d => (dictGet d "_id").isSome) = true) :
    ∀ p ∈ intRangeLen (clampStart sp) (pagesPlanned src ps sp ep),
      fetchPage src p ps ≠ [] ∧
      ∀ d ∈ fetchPage src p ps, (dictGet d "_id").isSome = true := by
  intro p hp
  obtain ⟨i, hi, rfl⟩ := mem_intRangeLen.1 hp
  have hS : 1 ≤ clampStart sp := by
    unfold clampStart
    exact le_max_left _ _
  have hp1 : 1 ≤ clampStart sp + (i : Int) := by omega
  have hE : clampEnd (pyCeilDiv (src.length : Int) ps) ep ≤
      pyCeilDiv (src.length : Int) ps := min_le_left _ _
  have hpE : clampStart sp + (i : Int) ≤
      clampEnd (pyCeilDiv (src.length : Int) ps) ep := by
    unfold pagesPlanned at hi
    omega
  have hlt := page_le_totalPages_lt hps hp1 (le_trans hpE hE)
  refine ⟨fetchPage_ne_nil hps hp1 hlt, ?_⟩
  intro d hd
  exact (List.all_eq_true.1 hid) d (fetchPage_subset hd)

/-! ## Claim C3 — page-range clamping (corrected) -/

/-- C3 (amended): for every collection, positive page size and well-formed
documents, `run` clamps the page range — `startPage` falls back to 1 when
omitted, `0` (falsy), or below 1; `endPage` falls back to `totalPages` when
omitted **or `0`** (Python falsiness) and is otherwise capped at
`totalPages` — and then fetches and processes exactly the pages from the
clamped start through the clamped end inclusive, inserting one batch per
page. -/
theorem C3_run_processes_clamped_range (m : SBERTModel) (g : Nat → Rat)
    (src : List PyDict) (ps : Int) (sp ep : Option Int) (st : IngestState)
    (hps : 1 ≤ ps)
    (hid : src.all (fun d => (dictGet d "_id").isSome) = true) :
    (IngestionPipeline.run m g src (some ps) sp ep st).2.fetched =
      st.fetched ++ intRangeLen (clampStart sp) (pagesPlanned src ps sp ep) ∧
    (∃ tl, (IngestionPipeline.run m g src (some ps) sp ep st).2.store =
      st.store ++ tl ∧ tl.length = pagesPlanned src ps sp ep) ∧
    (IngestionPipeline.run m g src (some ps) sp ep st).1 =
      finishRun sp (clampStart sp + (pagesPlanned src ps sp ep : Int))
        (pagesPlanned src ps sp ep) (pyCeilDiv (src.length : Int) ps) := by
  obtain ⟨tl, heq, hlen⟩ := runLoop_ok m g src ps sp
    (pyCeilDiv (src.length : Int) ps) (pagesPlanned src ps sp ep)
    (clampStart sp) 0 st (pages_in_plan_good src ps sp ep hps hid)
  rw [run_unfold m g src ps sp ep st (by omega), heq]
  refine ⟨rfl, ⟨tl, rfl, hlen⟩, ?_⟩
  norm_num

/-- Witness for C3: the spec's clamping example — 25 documents, page size
10 (3 total pages), `startPage = 0`, `endPage = 999` — processes exactly
pages 1, 2, 3. -/
theorem C3_run_processes_clamped_range_witness :
    (1 : Int) ≤ 10 ∧
    src25.all (fun d => (dictGet d "_id").isSome) = true ∧
    ((IngestionPipeline.run mDefault gZero src25 (some 10) (some 0) (some 999)
        stEmpty).2.fetched =
      stEmpty.fetched ++
        intRangeLen (clampStart (some 0)) (pagesPlanned src25 10 (some 0) (some 999)) ∧
    (∃ tl, (IngestionPipeline.run mDefault gZero src25 (some 10) (some 0) (some 999)
        stEmpty).2.store =
      stEmpty.store ++ tl ∧ tl.length = pagesPlanned src25 10 (some 0) (some 999)) ∧
    (IngestionPipeline.run mDefault gZero src25 (some 10) (some 0) (some 999)
        stEmpty).1 =
      finishRun (some 0)
        (clampStart (some 0) + (pagesPlanned src25 10 (some 0) (some 999) : Int))
        (pagesPlanned src25 10 (some 0) (some 999))
        (pyCeilDiv (src25.length : Int) 10)) :=
  ⟨by decide, by decide,
    C3_run_processes_clamped_range mDefault gZero src25 10 (some 0) (some 999)
      stEmpty (by decide) (by decide)⟩

/-- Counterexample to C3 as literally stated: with `endPage = 0` supplied on
a 3-page collection, "clamping endPage to at most totalPages" would give
`min(3, 0) = 0`, i.e. no pages; the code instead treats the falsy `0` as
"not provided", defaults it to `totalPages`, and fetches pages 1, 2, 3. -/
theorem C3_endpage_zero_counterexample :
    (IngestionPipeline.run mDefault gZero src6 (some 2) (some 1) (some 0)
        stEmpty).2.fetched = [1, 2, 3] ∧
    min (pyCeilDiv (src6.length : Int) 2) 0 = 0 ∧
    intRangeLen 1 ((min (pyCeilDiv (src6.length : Int) 2) 0 + 1 - 1).toNat) =
      [] := by
  refine ⟨?_, by decide, by decide⟩
  decide

/-! ## Claim C5 — failure isolation (abort on batch error) -/

/-- C5: if the batch of page `k` (inside the clamped range) raises — here a
`KeyError` from a document without `_id` — `run` logs and re-raises
immediately: the result is the error, not a success summary; no page after
`k` is ever fetched; and the vector store still extends the initial store
with exactly the documents inserted by the fully processed earlier pages
(one per page) — no rollback, no retry, nothing of page `k` inserted. -/
theorem C5_run_aborts_on_batch_error (m : SBERTModel) (g : Nat → Rat)
    (src : List PyDict) (ps : Int) (sp ep : Option Int) (st : IngestState)
    (k : Int) (hps : 1 ≤ ps)
    (hk1 : clampStart sp ≤ k)
    (hk2 : k ≤ clampEnd (pyCeilDiv (src.length : Int) ps) ep)
    (hgood : ∀ p ∈ intRangeLen (clampStart sp) (k - clampStart sp).toNat,
      ∀ d ∈ fetchPage src p ps, (dictGet d "_id").isSome = true)
    (hbad : (fetchPage src k ps).any (fun d => (dictGet d "_id").isNone) = true) :
    (IngestionPipeline.run m g src (some ps) sp ep st).1 =
      Except.error PyErr.keyErr ∧
    (IngestionPipeline.run m g src (some ps) sp ep st).2.fetched =
      st.fetched ++ intRangeLen (clampStart sp) ((k - clampStart sp).toNat + 1) ∧
    ∃ tl, (IngestionPipeline.run m g src (some ps) sp ep st).2.store =
      st.store ++ tl ∧ tl.length = (k - clampStart sp).toNat := by
  have hS : 1 ≤ clampStart sp := by
    unfold clampStart
    exact le_max_left _ _
  have hjf : (k - clampStart sp).toNat < pagesPlanned src ps sp ep := by
    unfold pagesPlanned
    omega
  have hE : clampEnd (pyCeilDiv (src.length : Int) ps) ep ≤
      pyCeilDiv (src.length : Int) ps := min_le_left _ _
  have hgood' : ∀ p ∈ intRangeLen (clampStart sp) (k - clampStart sp).toNat,
      fetchPage src p ps ≠ [] ∧
      ∀ d ∈ fetchPage src p ps, (dictGet d "_id").isSome = true := by
    intro p hp
    obtain ⟨i, hi, rfl⟩ := mem_intRangeLen.1 hp
    have hp1 : 1 ≤ clampStart sp + (i : Int) := by omega
    have hpE : clampStart sp + (i : Int) ≤
        clampEnd (pyCeilDiv (src.length : Int) ps) ep := by omega
    have hlt := page_le_totalPages_lt hps hp1 (le_trans hpE hE)
    exact ⟨fetchPage_ne_nil hps hp1 hlt, hgood _ hp⟩
  have hSj : clampStart sp + (((k - clampStart sp).toNat : Nat) : Int) = k := by
    omega
  have hbad' : ∃ d ∈ fetchPage src
      (clampStart sp + (((k - clampStart sp).toNat : Nat) : Int)) ps,
      dictGet d "_id" = none := by
    rw [hSj]
    obtain ⟨d, hd, hn⟩ := List.any_eq_true.1 hbad
    exact ⟨d, hd, Option.isNone_iff_eq_none.1 hn⟩
  obtain ⟨tl, heq, hlen⟩ := runLoop_err m g src ps sp
    (pyCeilDiv (src.length : Int) ps) (k - clampStart sp).toNat
    (pagesPlanned src ps sp ep) (clampStart sp) 0 st hjf hgood' hbad'
  rw [run_unfold m g src ps sp ep st (by omega), heq]
  exact ⟨rfl, rfl, tl, rfl, hlen⟩

/-- Witness for C5: four documents at page size 2 (2 pages); the document
missing `_id` sits on page 2, so page 1's insert survives and the run
errors. -/
theorem C5_run_aborts_on_batch_error_witness :
    ((1 : Int) ≤ 2 ∧ clampStart (some 1) ≤ 2 ∧
      (2 : Int) ≤ clampEnd (pyCeilDiv (srcBad.length : Int) 2) (some 2) ∧
      (∀ p ∈ intRangeLen (clampStart (some 1)) ((2 - clampStart (some 1)).toNat),
        ∀ d ∈ fetchPage srcBad p 2, (dictGet d "_id").isSome = true) ∧
      (fetchPage srcBad 2 2).any (fun d => (dictGet d "_id").isNone) = true) ∧
    ((IngestionPipeline.run mDefault gZero srcBad (some 2) (some 1) (some 2)
        stEmpty).1 = Except.error PyErr.keyErr ∧
    (IngestionPipeline.run mDefault gZero srcBad (some 2) (some 1) (some 2)
        stEmpty).2.fetched =
      stEmpty.fetched ++
        intRangeLen (clampStart (some 1)) ((2 - clampStart (some 1)).toNat + 1) ∧
    ∃ tl, (IngestionPipeline.run mDefault gZero srcBad (some 2) (some 1) (some 2)
        stEmpty).2.store =
      stEmpty.store ++ tl ∧ tl.length = (2 - clampStart (some 1)).toNat) :=
  ⟨⟨by decide, by decide, by decide, by decide, by decide⟩,
    C5_run_aborts_on_batch_error mDefault gZero srcBad 2 (some 1) (some 2)
      stEmpty 2 (by decide) (by decide) (by decide) (by decide) (by decide)⟩

/-! ## Claim C7 — completion summary (code bug) -/

/-- C7 (code-bug evidence): `pages_processed` is computed as
`current_page - start_page` from the *raw* `start_page` argument.  On a
3-page collection with `start_page = 0` (clamped to 1) the run processes
exactly pages 1, 2, 3 — the fetch trace has 3 pages — yet the summary
reports `pages_processed = 4`; and with `start_page` omitted (`None`) the
subtraction in the summary construction itself raises `TypeError` after the
whole range was processed, so no summary is returned at all.  (The
`total_processed = 3` for 30-documents-worth of pages is the `zip`
truncation of claim C1: one document inserted per page.) -/
theorem C7_pages_processed_miscount :
    (IngestionPipeline.run mDefault gZero src6 (some 2) (some 0) (some 999)
        stEmpty).1 =
      Except.ok { status := "success", total_processed := 3,
                  pages_processed := 4, total_pages := 3 } ∧
    (IngestionPipeline.run mDefault gZero src6 (some 2) (some 0) (some 999)
        stEmpty).2.fetched = [1, 2, 3] ∧
    (IngestionPipeline.run mDefault gZero src6 (some 2) none (some 999)
        stEmpty).1 = Except.error PyErr.typeErr := by
  refine ⟨?_, by decide, ?_⟩ <;> rfl

/-! ## Claim C10 — pageSize is effectively required -/

/-- C10: calling `run` with `page_size` omitted (`None`) raises `TypeError`
at the `total_pages = ceil(total_docs / page_size)` computation, before any
page is fetched and before any document is written: the returned state is
exactly the initial state. -/
theorem C10_run_requires_page_size (m : SBERTModel) (g : Nat → Rat)
    (src : List PyDict) (sp ep : Option Int) (st : IngestState) :
    IngestionPipeline.run m g src none sp ep st =
      (Except.error PyErr.typeErr, st) := rfl
